import Mathlib

/-!
Shallow embedding of the stress-test degradation-detection procedure of
`src/stress-test.js` (function `runStressTest`), and proofs of the spec's
claims about it.

Modelling conventions:
* JavaScript numbers (throughput, latency, error rate) are embedded as `ℚ`.
* `Math.max(...)` over a possibly-empty list is embedded in `WithBot`
  (`Math.max()` of no arguments is `-Infinity`, i.e. `⊥`).
* JavaScript truthiness of the `degradationPoint` variable (`null` or a
  number) is embedded by `optTruthy`: `null` and `0` are falsy.
* The external load engine (`autocannon`) is an injected function
  `engine : ℕ → Except Unit LoadResult`; a thrown exception is `.error ()`
  and, exactly as in the source (which has no `try`/`catch` inside the
  per-endpoint loop), it propagates out of the walk.
-/

/-- Aggregate metrics returned by one invocation of the external load
engine (the fields of the `autocannon` result that the script reads). -/
structure LoadResult where
  throughputAvg : ℚ
  latencyAvg : ℚ
  latencyP95 : ℚ
  requestsTotal : ℕ
  errors : ℕ
  timeouts : ℕ
  statusCodes : List (ℕ × ℕ)
  non2xx : ℕ
deriving DecidableEq, Repr

/-- One Metrics Sample: the record pushed onto `endpointResults`
(`src/stress-test.js` lines 255-265). -/
structure Sample where
  connections : ℕ
  throughput : ℚ
  latency : ℚ
  p95Latency : ℚ
  errorRate : ℚ
  errors : ℕ
  timeouts : ℕ
  statusCodes : List (ℕ × ℕ)
  non2xx : ℕ
deriving DecidableEq, Repr

/-- Per-endpoint escalation state: the four mutable loop variables
declared at `src/stress-test.js` lines 189-192. -/
structure EscalationState where
  previousThroughput : ℚ
  degradationPoint : Option ℕ
  errorRateThreshold : Bool
  latencyThreshold : Bool
deriving DecidableEq, Repr

/-- JavaScript truthiness of the `degradationPoint` variable, which holds
`null` or a number: `null` and `0` are falsy, every other number truthy. -/
def optTruthy : Option ℕ → Bool
  | none => false
  | some n => decide (n ≠ 0)

/-- JavaScript `x || 1` on a count `x : ℕ`: `0` is falsy, so a zero count
is replaced by `1` (the guard in `result.requests.total || 1`, line 234). -/
def jsOrOne (n : ℕ) : ℕ := if n = 0 then 1 else n

/-- Building one Metrics Sample from a load-engine result
(`src/stress-test.js` lines 232-265). -/
def computeSample (connections : ℕ) (result : LoadResult) : Sample :=
  { connections := connections
    throughput := result.throughputAvg
    latency := result.latencyAvg
    p95Latency := result.latencyP95
    errorRate := (result.errors : ℚ) / (jsOrOne result.requestsTotal : ℚ)
    errors := result.errors
    timeouts := result.timeouts
    statusCodes := result.statusCodes
    non2xx := result.non2xx }

/-- The Degradation Detector: the state update performed after one
executed sample (`src/stress-test.js` lines 267-303): degradation-point
marking, sticky hard-stop flags, and the `previousThroughput` update. -/
def detectorStep (st : EscalationState) (s : Sample) : EscalationState :=
  let throughputDegradation : Bool :=
    decide (st.previousThroughput > 0) &&
      decide (s.throughput < st.previousThroughput * (8 / 10 : ℚ))
  let highErrorRate : Bool := decide (s.errorRate > (5 / 100 : ℚ))
  let highLatency : Bool := decide (s.latency > (1000 : ℚ))
  { previousThroughput := s.throughput
    degradationPoint :=
      if (throughputDegradation || highErrorRate || highLatency)
          && !optTruthy st.degradationPoint
      then some s.connections
      else st.degradationPoint
    errorRateThreshold :=
      if s.errorRate > (1 / 10 : ℚ) then true else st.errorRateThreshold
    latencyThreshold :=
      if s.latency > (3000 : ℚ) then true else st.latencyThreshold }

/-- The per-endpoint ladder walk (`src/stress-test.js` lines 195-304):
iterate the connection levels in order; apply the skip-ahead rule and the
sticky-flag rule before invoking the engine; otherwise invoke the engine,
record the sample and feed it to the detector.  An engine exception
propagates (the loop body has no `try`/`catch`), losing the accumulated
samples. -/
def walkLevels (engine : ℕ → Except Unit LoadResult) :
    List ℕ → EscalationState → List Sample →
    Except Unit (EscalationState × List Sample)
  | [], st, acc => .ok (st, acc)
  | connections :: rest, st, acc =>
    if optTruthy st.degradationPoint
        && decide (connections > st.degradationPoint.getD 0 * 2) then
      walkLevels engine rest st acc
    else if st.errorRateThreshold || st.latencyThreshold then
      walkLevels engine rest st acc
    else
      match engine connections with
      | .error e => .error e
      | .ok result =>
        let s := computeSample connections result
        walkLevels engine rest (detectorStep st s) (acc ++ [s])

/-- The base concurrency ladder (`src/stress-test.js` lines 146-148). -/
def baseConnectionLevels : List ℕ :=
  [10, 25, 50, 100, 250, 500, 1000, 2000, 5000, 7500, 10000, 15000, 20000]

/-- Fresh escalation state at the start of an endpoint walk
(`src/stress-test.js` lines 189-192). -/
def initialState : EscalationState :=
  { previousThroughput := 0
    degradationPoint := none
    errorRateThreshold := false
    latencyThreshold := false }

/-- `Math.max(...results.map(r => r.throughput))`: maximum throughput over
the samples, `⊥` (JavaScript `-Infinity`) when there are none
(`src/stress-test.js` line 307). -/
def maxThroughputOf (results : List Sample) : WithBot ℚ :=
  results.foldr (fun r acc => max (r.throughput : WithBot ℚ) acc) ⊥

/-- `results.find(r => r.throughput === maxThroughput)`: the first sample
achieving the maximum throughput (`src/stress-test.js` line 308). -/
def optimalConnectionPoint (results : List Sample) : Option Sample :=
  results.find? fun r =>
    decide ((r.throughput : WithBot ℚ) = maxThroughputOf results)

/-- Endpoint Summary (`src/stress-test.js` lines 310-320). -/
structure EndpointSummary where
  name : String
  degradationPoint : Option ℕ
  optimalConnections : Option ℕ
  maxThroughput : WithBot ℚ
  results : List Sample
deriving DecidableEq, Repr

/-- Deriving the Endpoint Summary after a walk
(`src/stress-test.js` lines 306-320). -/
def mkEndpointSummary (name : String) (degradationPoint : Option ℕ)
    (results : List Sample) : EndpointSummary :=
  { name := name
    degradationPoint := degradationPoint
    optimalConnections := (optimalConnectionPoint results).map (·.connections)
    maxThroughput := maxThroughputOf results
    results := results }

/-- One endpoint's escalation walk (`src/stress-test.js` lines 185-320):
filter the base ladder to the endpoint's `maxConnections` ceiling, walk
it from a fresh state, and fold the outcome into an Endpoint Summary.
An engine exception propagates and no summary is produced. -/
def runEndpoint (engine : ℕ → Except Unit LoadResult) (name : String)
    (maxConnections : ℕ) : Except Unit EndpointSummary :=
  let connectionLevels :=
    baseConnectionLevels.filter fun level => level ≤ maxConnections
  match walkLevels engine connectionLevels initialState [] with
  | .error e => .error e
  | .ok (st, results) => .ok (mkEndpointSummary name st.degradationPoint results)

/-- Endpoint identity as the sweep needs it. -/
structure EndpointSpec where
  name : String
  maxConnections : ℕ
deriving DecidableEq, Repr

/-- The multi-endpoint sweep (`src/stress-test.js` lines 178-346):
endpoints are processed sequentially; an exception thrown during any
endpoint's walk propagates out of the whole sweep (it is only caught by
the top-level handler at lines 443-446, which logs and exits), so the
remaining endpoints are not processed. -/
def runSweep (engine : String → ℕ → Except Unit LoadResult) :
    List EndpointSpec → Except Unit (List EndpointSummary)
  | [] => .ok []
  | e :: rest =>
    match runEndpoint (engine e.name) e.name e.maxConnections with
    | .error err => .error err
    | .ok summary => (runSweep engine rest).map fun tail => summary :: tail

/-- `summaries[i].results[last].connections` with `0` for an endpoint with
no samples (`src/stress-test.js` line 383). -/
def lastConnectionsOrZero (e : EndpointSummary) : ℕ :=
  match e.results.getLast? with
  | some r => r.connections
  | none => 0

/-- `Math.max(...)` over the per-endpoint last tested levels, `⊥`
(JavaScript `-Infinity`) for an empty summary list
(`src/stress-test.js` lines 382-384). -/
def maxTestedConnections (summaries : List EndpointSummary) : WithBot ℕ :=
  summaries.foldr (fun e acc => max (lastConnectionsOrZero e : WithBot ℕ) acc) ⊥

/-- The tie-keeping step of the bottleneck `reduce`
(`src/stress-test.js` lines 366-368): keep `prev` only when its
degradation point is strictly smaller, otherwise take `current`. -/
def bottleneckStep (prev current : EndpointSummary) : EndpointSummary :=
  if prev.degradationPoint.getD 0 < current.degradationPoint.getD 0
  then prev else current

/-- Bottleneck selection (`src/stress-test.js` lines 362-368): filter to
summaries with a truthy degradation point; `Array.prototype.reduce`
without an initial value seeds with the first element. -/
def findBottleneck (summaries : List EndpointSummary) : Option EndpointSummary :=
  match summaries.filter (fun e => optTruthy e.degradationPoint) with
  | [] => none
  | h :: t => some (t.foldl bottleneckStep h)

/-- The decisions of the overall capacity analysis
(`src/stress-test.js` lines 360-388). -/
structure SystemReport where
  bottleneck : Option EndpointSummary
  recommendedLimit : Option ℤ
  maxTested : Option (WithBot ℕ)
deriving DecidableEq, Repr

/-- The System Aggregator (`src/stress-test.js` lines 362-388): when some
summary has a truthy degradation point, report the bottleneck and the
system limit `Math.floor(degradationPoint * 0.7)`; otherwise surface the
maximum tested connection level. -/
def aggregate (summaries : List EndpointSummary) : SystemReport :=
  match findBottleneck summaries with
  | some b =>
    { bottleneck := some b
      recommendedLimit :=
        some (Int.floor ((b.degradationPoint.getD 0 : ℚ) * (7 / 10 : ℚ)))
      maxTested := none }
  | none =>
    { bottleneck := none
      recommendedLimit := none
      maxTested := some (maxTestedConnections summaries) }

/-! ## Concrete fixtures (used by witnesses and counterexamples) -/

/-- A clean load-engine result: no errors, low latency. -/
def okRes : LoadResult :=
  { throughputAvg := 100, latencyAvg := 10, latencyP95 := 20,
    requestsTotal := 1000, errors := 0, timeouts := 0,
    statusCodes := [], non2xx := 0 }

/-- A load-engine result with a 20% error rate. -/
def badRes : LoadResult :=
  { throughputAvg := 100, latencyAvg := 10, latencyP95 := 20,
    requestsTotal := 1000, errors := 200, timeouts := 0,
    statusCodes := [], non2xx := 0 }

/-- A load engine that reports a 20% error rate at level 25 and clean
results elsewhere. -/
def engineW : ℕ → Except Unit LoadResult :=
  fun c => if c = 25 then .ok badRes else .ok okRes

/-- A load engine that throws at level 50 and is clean elsewhere. -/
def errEngineW : ℕ → Except Unit LoadResult :=
  fun c => if c = 50 then .error () else .ok okRes

/-- The sample `engineW` produces at level 10. -/
def s10W : Sample :=
  { connections := 10, throughput := 100, latency := 10, p95Latency := 20,
    errorRate := 0, errors := 0, timeouts := 0, statusCodes := [], non2xx := 0 }

/-- The sample `engineW` produces at level 25. -/
def s25W : Sample :=
  { connections := 25, throughput := 100, latency := 10, p95Latency := 20,
    errorRate := 1 / 5, errors := 200, timeouts := 0, statusCodes := [],
    non2xx := 0 }

/-- The sample `engineW` produces at level 50. -/
def s50W : Sample :=
  { connections := 50, throughput := 100, latency := 10, p95Latency := 20,
    errorRate := 0, errors := 0, timeouts := 0, statusCodes := [], non2xx := 0 }

/-- A state with nonzero previous throughput and unset degradation point. -/
def stMark : EscalationState :=
  { previousThroughput := 100, degradationPoint := none,
    errorRateThreshold := false, latencyThreshold := false }

/-- A sample whose throughput dropped by 50% from `stMark`'s 100. -/
def sDropW : Sample :=
  { connections := 25, throughput := 50, latency := 10, p95Latency := 20,
    errorRate := 0, errors := 0, timeouts := 0, statusCodes := [], non2xx := 0 }

/-- A state whose degradation point is already set to 25. -/
def stDPW : EscalationState :=
  { previousThroughput := 0, degradationPoint := some 25,
    errorRateThreshold := false, latencyThreshold := false }

/-- The final state of `engineW`'s walk over `[10, 25, 50]`. -/
def stFinW : EscalationState :=
  { previousThroughput := 100, degradationPoint := some 25,
    errorRateThreshold := true, latencyThreshold := false }

/-- The summary `engineW`'s endpoint run with ceiling 100 produces. -/
def summaryW : EndpointSummary :=
  { name := "x", degradationPoint := some 25, optimalConnections := some 10,
    maxThroughput := (100 : ℚ), results := [s10W, s25W] }

/-- A summary named "A" with degradation point 100. -/
def sumA : EndpointSummary :=
  { name := "A", degradationPoint := some 100, optimalConnections := none,
    maxThroughput := ⊥, results := [] }

/-- A summary named "B", also with degradation point 100. -/
def sumB : EndpointSummary :=
  { name := "B", degradationPoint := some 100, optimalConnections := none,
    maxThroughput := ⊥, results := [] }

/-- A summary named "C" with no degradation point and samples at 10, 25. -/
def sumC : EndpointSummary :=
  { name := "C", degradationPoint := none, optimalConnections := some 10,
    maxThroughput := (100 : ℚ), results := [s10W, s25W] }

/-! ## Basic lemmas about the detector step -/

/-- `jsOrOne` is `max · 1`. -/
theorem jsOrOne_eq_max (n : ℕ) : jsOrOne n = max n 1 := by
  unfold jsOrOne; split <;> omega

/-- The error-rate sticky flag is never cleared by a detector step. -/
theorem detectorStep_errorFlag_sticky (st : EscalationState) (s : Sample)
    (h : st.errorRateThreshold = true) :
    (detectorStep st s).errorRateThreshold = true := by
  simp only [detectorStep]
  split <;> simp [h]

/-- The latency sticky flag is never cleared by a detector step. -/
theorem detectorStep_latencyFlag_sticky (st : EscalationState) (s : Sample)
    (h : st.latencyThreshold = true) :
    (detectorStep st s).latencyThreshold = true := by
  simp only [detectorStep]
  split <;> simp [h]

/-- A truthy degradation point is never changed by a detector step. -/
theorem detectorStep_dp_preserved (st : EscalationState) (s : Sample)
    (d : ℕ) (hdp : st.degradationPoint = some d) (hd0 : d ≠ 0) :
    (detectorStep st s).degradationPoint = some d := by
  simp [detectorStep, optTruthy, hdp, hd0]

/-- From an unset degradation point, a detector step either marks the
sample's connection count or leaves the point unset. -/
theorem detectorStep_dp_none (st : EscalationState) (s : Sample)
    (hdp : st.degradationPoint = none) :
    (detectorStep st s).degradationPoint = some s.connections ∨
      (detectorStep st s).degradationPoint = none := by
  simp only [detectorStep, optTruthy, hdp]
  split <;> simp

/-! ## Structural lemmas about the ladder walk -/

/-- The sample accumulator only grows by appending: a walk from
accumulator `acc` is the walk from `[]` with `acc` prepended. -/
theorem walkLevels_acc (engine : ℕ → Except Unit LoadResult) :
    ∀ (levels : List ℕ) (st : EscalationState) (acc : List Sample),
      walkLevels engine levels st acc =
        (walkLevels engine levels st []).map fun p => (p.1, acc ++ p.2) := by
  intro levels
  induction levels with
  | nil => intro st acc; simp [walkLevels, Except.map]
  | cons c rest ih =>
    intro st acc
    simp only [walkLevels]
    split
    · exact ih st acc
    · split
      · exact ih st acc
      · cases hE : engine c with
        | error e => simp [Except.map]
        | ok result =>
          show walkLevels engine rest (detectorStep st (computeSample c result))
                (acc ++ [computeSample c result]) =
              Except.map (fun p => (p.1, acc ++ p.2))
                (walkLevels engine rest (detectorStep st (computeSample c result))
                  ([] ++ [computeSample c result]))
          rw [ih (detectorStep st (computeSample c result))
                (acc ++ [computeSample c result]),
              ih (detectorStep st (computeSample c result))
                ([] ++ [computeSample c result])]
          cases walkLevels engine rest
              (detectorStep st (computeSample c result)) [] with
          | error e => simp [Except.map]
          | ok p => simp [Except.map]

/-- When a sticky threshold flag is set, the walk skips every remaining
level: the state and accumulator are returned unchanged and the engine is
never invoked. -/
theorem walkLevels_flagged (engine : ℕ → Except Unit LoadResult) :
    ∀ (levels : List ℕ) (st : EscalationState) (acc : List Sample),
      (st.errorRateThreshold || st.latencyThreshold) = true →
      walkLevels engine levels st acc = .ok (st, acc) := by
  intro levels
  induction levels with
  | nil => intro st acc _; rfl
  | cons c rest ih =>
    intro st acc h
    simp only [walkLevels, h]
    split
    · exact ih st acc h
    · exact ih st acc h

/-- A truthy degradation point survives a whole walk unchanged. -/
theorem walkLevels_dp_some (engine : ℕ → Except Unit LoadResult)
    (d : ℕ) (hd0 : d ≠ 0) :
    ∀ (levels : List ℕ) (st : EscalationState) (acc : List Sample)
      (st' : EscalationState) (res : List Sample),
      st.degradationPoint = some d →
      walkLevels engine levels st acc = .ok (st', res) →
      st'.degradationPoint = some d := by
  intro levels
  induction levels with
  | nil =>
    intro st acc st' res hdp h
    simp only [walkLevels, Except.ok.injEq, Prod.mk.injEq] at h
    rw [← h.1]; exact hdp
  | cons c rest ih =>
    intro st acc st' res hdp h
    simp only [walkLevels] at h
    split at h
    · exact ih st acc st' res hdp h
    · split at h
      · exact ih st acc st' res hdp h
      · cases hE : engine c with
        | error e => rw [hE] at h; simp at h
        | ok result =>
          rw [hE] at h
          exact ih (detectorStep st (computeSample c result))
            (acc ++ [computeSample c result]) st' res
            (detectorStep_dp_preserved st (computeSample c result) d hdp hd0) h

/-- Destructuring a successful walk whose accumulator holds one sample. -/
theorem walkLevels_singleton_acc (engine : ℕ → Except Unit LoadResult)
    (levels : List ℕ) (st st' : EscalationState) (res : List Sample)
    (x : Sample)
    (h : walkLevels engine levels st [x] = .ok (st', res)) :
    ∃ res', res = x :: res' ∧
      walkLevels engine levels st [] = .ok (st', res') := by
  rw [walkLevels_acc] at h
  cases hW : walkLevels engine levels st [] with
  | error e => rw [hW] at h; simp [Except.map] at h
  | ok p =>
    rw [hW] at h
    simp only [Except.map, Except.ok.injEq, Prod.mk.injEq,
      List.singleton_append] at h
    obtain ⟨h1, h2⟩ := h
    subst h1
    exact ⟨p.2, h2.symm, by rw [Prod.mk.eta]⟩

/-- Every sample produced by a walk comes from one of the walked levels. -/
theorem walkLevels_mem (engine : ℕ → Except Unit LoadResult) :
    ∀ (levels : List ℕ) (st st' : EscalationState) (res : List Sample),
      walkLevels engine levels st [] = .ok (st', res) →
      ∀ s ∈ res, s.connections ∈ levels := by
  intro levels
  induction levels with
  | nil =>
    intro st st' res h s hs
    simp only [walkLevels, Except.ok.injEq, Prod.mk.injEq] at h
    rw [← h.2] at hs
    simp at hs
  | cons c rest ih =>
    intro st st' res h s hs
    simp only [walkLevels] at h
    split at h
    · exact List.mem_cons_of_mem c (ih st st' res h s hs)
    · split at h
      · exact List.mem_cons_of_mem c (ih st st' res h s hs)
      · cases hE : engine c with
        | error e => rw [hE] at h; simp at h
        | ok result =>
          rw [hE] at h
          have h' : walkLevels engine rest
              (detectorStep st (computeSample c result))
              [computeSample c result] = .ok (st', res) := h
          obtain ⟨res', hres, hW⟩ :=
            walkLevels_singleton_acc engine rest _ st' res _ h'
          rw [hres] at hs
          rcases List.mem_cons.mp hs with hs | hs
          · rw [hs]; exact List.mem_cons_self c rest
          · exact List.mem_cons_of_mem c
              (ih (detectorStep st (computeSample c result)) st' res' hW s hs)

/-- A walk over strictly ascending levels produces samples with strictly
ascending connection counts. -/
theorem walkLevels_sorted (engine : ℕ → Except Unit LoadResult) :
    ∀ (levels : List ℕ), List.Pairwise (· < ·) levels →
      ∀ (st st' : EscalationState) (res : List Sample),
        walkLevels engine levels st [] = .ok (st', res) →
        List.Pairwise (fun a b => a.connections < b.connections) res := by
  intro levels
  induction levels with
  | nil =>
    intro _ st st' res h
    simp only [walkLevels, Except.ok.injEq, Prod.mk.injEq] at h
    rw [← h.2]
    exact List.Pairwise.nil
  | cons c rest ih =>
    intro hp st st' res h
    simp only [walkLevels] at h
    split at h
    · exact ih hp.of_cons st st' res h
    · split at h
      · exact ih hp.of_cons st st' res h
      · cases hE : engine c with
        | error e => rw [hE] at h; simp at h
        | ok result =>
          rw [hE] at h
          have h' : walkLevels engine rest
              (detectorStep st (computeSample c result))
              [computeSample c result] = .ok (st', res) := h
          obtain ⟨res', hres, hW⟩ :=
            walkLevels_singleton_acc engine rest _ st' res _ h'
          rw [hres]
          refine List.Pairwise.cons ?_
            (ih hp.of_cons (detectorStep st (computeSample c result)) st' res' hW)
          intro r hr
          have hmem := walkLevels_mem engine rest _ st' res' hW r hr
          exact (List.pairwise_cons.mp hp).1 r.connections hmem

/-- Once the degradation point holds a truthy level `d`, every sample the
rest of the walk produces is at a level `≤ d * 2` (the skip-ahead rule). -/
theorem walkLevels_dp_some_bound (engine : ℕ → Except Unit LoadResult)
    (d : ℕ) (hd0 : d ≠ 0) :
    ∀ (levels : List ℕ) (st st' : EscalationState) (res : List Sample),
      st.degradationPoint = some d →
      walkLevels engine levels st [] = .ok (st', res) →
      ∀ s ∈ res, s.connections ≤ d * 2 := by
  intro levels
  induction levels with
  | nil =>
    intro st st' res hdp h s hs
    simp only [walkLevels, Except.ok.injEq, Prod.mk.injEq] at h
    rw [← h.2] at hs
    simp at hs
  | cons c rest ih =>
    intro st st' res hdp h s hs
    simp only [walkLevels] at h
    split at h
    · exact ih st st' res hdp h s hs
    · split at h
      · exact ih st st' res hdp h s hs
      · rename_i hg1 hg2
        cases hE : engine c with
        | error e => rw [hE] at h; simp at h
        | ok result =>
          rw [hE] at h
          have h' : walkLevels engine rest
              (detectorStep st (computeSample c result))
              [computeSample c result] = .ok (st', res) := h
          obtain ⟨res', hres, hW⟩ :=
            walkLevels_singleton_acc engine rest _ st' res _ h'
          have hc : c ≤ d * 2 := by
            simp only [hdp, optTruthy, Bool.and_eq_true, decide_eq_true_eq] at hg1
            by_contra hcon
            exact hg1 ⟨hd0, by simpa using Nat.lt_of_not_le hcon⟩
          rw [hres] at hs
          rcases List.mem_cons.mp hs with hs | hs
          · rw [hs]; exact hc
          · exact ih (detectorStep st (computeSample c result)) st' res'
              (detectorStep_dp_preserved st (computeSample c result) d hdp hd0)
              hW s hs

/-- A detector step on a sample breaching a hard-stop threshold sets the
corresponding sticky flag. -/
theorem detectorStep_err_set (st : EscalationState) (s : Sample)
    (h : (1 / 10 : ℚ) < s.errorRate) :
    (detectorStep st s).errorRateThreshold = true := by
  have heq : (detectorStep st s).errorRateThreshold =
      if s.errorRate > (1 / 10 : ℚ) then true else st.errorRateThreshold := rfl
  rw [heq, if_pos h]

/-- A detector step on a sample breaching the latency hard-stop threshold
sets the latency sticky flag. -/
theorem detectorStep_lat_set (st : EscalationState) (s : Sample)
    (h : (3000 : ℚ) < s.latency) :
    (detectorStep st s).latencyThreshold = true := by
  have heq : (detectorStep st s).latencyThreshold =
      if s.latency > (3000 : ℚ) then true else st.latencyThreshold := rfl
  rw [heq, if_pos h]

/-- Walking strictly ascending nonzero levels from an unset degradation
point: either the point stays unset, or it is set to one of the walked
levels `D` and every produced sample is at a level `≤ 2 * D`. -/
theorem walkLevels_none_dp (engine : ℕ → Except Unit LoadResult) :
    ∀ (levels : List ℕ), List.Pairwise (· < ·) levels →
      (∀ l ∈ levels, l ≠ 0) →
      ∀ (st st' : EscalationState) (res : List Sample),
        st.degradationPoint = none →
        walkLevels engine levels st [] = .ok (st', res) →
        st'.degradationPoint = none ∨
          ∃ D, st'.degradationPoint = some D ∧ D ∈ levels ∧
            ∀ s ∈ res, s.connections ≤ 2 * D := by
  intro levels
  induction levels with
  | nil =>
    intro _ _ st st' res hdp h
    simp only [walkLevels, Except.ok.injEq, Prod.mk.injEq] at h
    rw [← h.1]
    exact Or.inl hdp
  | cons c rest ih =>
    intro hp hpos st st' res hdp h
    simp only [walkLevels] at h
    split at h
    · rename_i hg1
      rw [hdp] at hg1
      simp [optTruthy] at hg1
    · split at h
      · rcases ih hp.of_cons (fun l hl => hpos l (List.mem_cons_of_mem c hl))
            st st' res hdp h with hl | ⟨D, hD, hDmem, hbound⟩
        · exact Or.inl hl
        · exact Or.inr ⟨D, hD, List.mem_cons_of_mem c hDmem, hbound⟩
      · cases hE : engine c with
        | error e => rw [hE] at h; simp at h
        | ok result =>
          rw [hE] at h
          have h' : walkLevels engine rest
              (detectorStep st (computeSample c result))
              [computeSample c result] = .ok (st', res) := h
          obtain ⟨res', hres, hW⟩ :=
            walkLevels_singleton_acc engine rest _ st' res _ h'
          have hc0 : c ≠ 0 := hpos c (List.mem_cons_self c rest)
          rcases detectorStep_dp_none st (computeSample c result) hdp
              with hset | hnone
          · have hset' : (detectorStep st (computeSample c result)).degradationPoint
                = some c := hset
            refine Or.inr ⟨c,
              walkLevels_dp_some engine c hc0 rest _ [] st' res' hset' hW,
              List.mem_cons_self c rest, ?_⟩
            intro s hs
            rw [hres] at hs
            rcases List.mem_cons.mp hs with hs | hs
            · rw [hs]; show c ≤ 2 * c; omega
            · have := walkLevels_dp_some_bound engine c hc0 rest _ st' res'
                hset' hW s hs
              omega
          · rcases ih hp.of_cons (fun l hl => hpos l (List.mem_cons_of_mem c hl))
                (detectorStep st (computeSample c result)) st' res' hnone hW
                with hl | ⟨D, hD, hDmem, hbound⟩
            · exact Or.inl hl
            · refine Or.inr ⟨D, hD, List.mem_cons_of_mem c hDmem, ?_⟩
              intro s hs
              rw [hres] at hs
              rcases List.mem_cons.mp hs with hs | hs
              · have hcD : c < D := (List.pairwise_cons.mp hp).1 D hDmem
                rw [hs]; show c ≤ 2 * D; omega
              · exact hbound s hs

/-- A sample breaching a hard-stop threshold is the last sample of the
walk, and the corresponding sticky flag is still set in the final state. -/
theorem walkLevels_trigger (engine : ℕ → Except Unit LoadResult) :
    ∀ (levels : List ℕ) (st st' : EscalationState) (res : List Sample),
      walkLevels engine levels st [] = .ok (st', res) →
      ∀ s ∈ res, ((1 / 10 : ℚ) < s.errorRate ∨ (3000 : ℚ) < s.latency) →
        (∃ pre, res = pre ++ [s]) ∧
          ((1 / 10 : ℚ) < s.errorRate → st'.errorRateThreshold = true) ∧
          ((3000 : ℚ) < s.latency → st'.latencyThreshold = true) := by
  intro levels
  induction levels with
  | nil =>
    intro st st' res h s hs _
    simp only [walkLevels, Except.ok.injEq, Prod.mk.injEq] at h
    rw [← h.2] at hs
    simp at hs
  | cons c rest ih =>
    intro st st' res h s hs htrig
    simp only [walkLevels] at h
    split at h
    · exact ih st st' res h s hs htrig
    · split at h
      · exact ih st st' res h s hs htrig
      · cases hE : engine c with
        | error e => rw [hE] at h; simp at h
        | ok result =>
          rw [hE] at h
          have h' : walkLevels engine rest
              (detectorStep st (computeSample c result))
              [computeSample c result] = .ok (st', res) := h
          obtain ⟨res', hres, hW⟩ :=
            walkLevels_singleton_acc engine rest _ st' res _ h'
          rw [hres] at hs
          rcases List.mem_cons.mp hs with hs | hs
          · subst hs
            have hflag : ((detectorStep st (computeSample c result)).errorRateThreshold ||
                (detectorStep st (computeSample c result)).latencyThreshold) = true := by
              rcases htrig with ht | ht
              · rw [detectorStep_err_set st (computeSample c result) ht]; rfl
              · rw [detectorStep_lat_set st (computeSample c result) ht]
                simp
            have hskip := walkLevels_flagged engine rest
              (detectorStep st (computeSample c result)) [] hflag
            rw [hskip] at hW
            simp only [Except.ok.injEq, Prod.mk.injEq] at hW
            obtain ⟨hst, hres'⟩ := hW
            refine ⟨⟨[], by rw [hres, ← hres', List.nil_append]⟩, ?_, ?_⟩
            · intro ht
              rw [← hst]
              exact detectorStep_err_set st (computeSample c result) ht
            · intro ht
              rw [← hst]
              exact detectorStep_lat_set st (computeSample c result) ht
          · obtain ⟨⟨pre, hpre⟩, himp1, himp2⟩ :=
              ih (detectorStep st (computeSample c result)) st' res' hW s hs htrig
            exact ⟨⟨computeSample c result :: pre,
              by rw [hres, hpre]; rfl⟩, himp1, himp2⟩

/-! ## Bridging the detector's boolean condition to its propositional form -/

/-- The detector's combined boolean degradation condition holds exactly
when one of the three propositional conditions holds. -/
theorem degradationCond_iff (st : EscalationState) (s : Sample) :
    ((decide (st.previousThroughput > 0) &&
        decide (s.throughput < st.previousThroughput * (8 / 10 : ℚ)) ||
      decide (s.errorRate > (5 / 100 : ℚ)) ||
      decide (s.latency > (1000 : ℚ))) = true) ↔
    ((0 < st.previousThroughput ∧
        s.throughput < st.previousThroughput * (8 / 10 : ℚ)) ∨
      (5 / 100 : ℚ) < s.errorRate ∨ (1000 : ℚ) < s.latency) := by
  simp only [Bool.or_eq_true, Bool.and_eq_true, decide_eq_true_eq, gt_iff_lt]
  tauto

/-- C1: on every executed sample, the degradation point is set to the
sample's connection count exactly when it is still unset and throughput
dropped by more than 20%, or the error rate exceeds 5%, or the average
latency exceeds 1000 ms; otherwise it is left unchanged. -/
theorem degradation_point_marking (st : EscalationState) (s : Sample)
    (hdp : ∀ n, st.degradationPoint = some n → n ≠ 0) :
    (detectorStep st s).degradationPoint =
      if st.degradationPoint = none ∧
          ((0 < st.previousThroughput ∧
              s.throughput < st.previousThroughput * (8 / 10 : ℚ)) ∨
            (5 / 100 : ℚ) < s.errorRate ∨ (1000 : ℚ) < s.latency)
      then some s.connections else st.degradationPoint := by
  have heq : (detectorStep st s).degradationPoint =
      if ((decide (st.previousThroughput > 0) &&
            decide (s.throughput < st.previousThroughput * (8 / 10 : ℚ)) ||
          decide (s.errorRate > (5 / 100 : ℚ)) ||
          decide (s.latency > (1000 : ℚ))) &&
          !optTruthy st.degradationPoint) = true
      then some s.connections else st.degradationPoint := rfl
  cases hd : st.degradationPoint with
  | none =>
    rw [heq, hd]
    simp only [optTruthy, Bool.not_false, Bool.and_true]
    by_cases hc : (0 < st.previousThroughput ∧
        s.throughput < st.previousThroughput * (8 / 10 : ℚ)) ∨
      (5 / 100 : ℚ) < s.errorRate ∨ (1000 : ℚ) < s.latency
    · rw [if_pos ((degradationCond_iff st s).mpr hc), if_pos ⟨by trivial, hc⟩]
    · rw [if_neg (fun hb => hc ((degradationCond_iff st s).mp hb)),
        if_neg (fun hp => hc hp.2)]
  | some n =>
    rw [heq, hd]
    have ht : optTruthy (some n) = true := by
      simp [optTruthy, hdp n hd]
    rw [ht]
    simp

/-- C1 witness: at a concrete state with previous throughput 100 and
unset degradation point, a sample with throughput 50 marks the point. -/
theorem degradation_point_marking_witness :
    (∀ n, stMark.degradationPoint = some n → n ≠ 0) ∧
    (detectorStep stMark sDropW).degradationPoint =
      if stMark.degradationPoint = none ∧
          ((0 < stMark.previousThroughput ∧
              sDropW.throughput < stMark.previousThroughput * (8 / 10 : ℚ)) ∨
            (5 / 100 : ℚ) < sDropW.errorRate ∨ (1000 : ℚ) < sDropW.latency)
      then some sDropW.connections else stMark.degradationPoint :=
  ⟨by simp [stMark],
   degradation_point_marking stMark sDropW (by simp [stMark])⟩

/-- C2: once the degradation point is set (to a truthy level), it never
changes on any subsequent sample of the walk: every completed walk from
such a state ends with the same degradation point. -/
theorem degradation_point_stable (engine : ℕ → Except Unit LoadResult)
    (levels : List ℕ) (st st' : EscalationState) (acc res : List Sample)
    (d : ℕ) (hd : st.degradationPoint = some d) (hd0 : d ≠ 0)
    (h : walkLevels engine levels st acc = .ok (st', res)) :
    st'.degradationPoint = some d :=
  walkLevels_dp_some engine d hd0 levels st acc st' res hd h

/-- C2 witness: a concrete two-level walk from a state with degradation
point 25 ends with degradation point 25. -/
theorem degradation_point_stable_witness :
    walkLevels engineW [50, 100] stDPW [] =
      .ok ({ previousThroughput := 100, degradationPoint := some 25,
             errorRateThreshold := false, latencyThreshold := false }, [s50W]) ∧
    ({ previousThroughput := 100, degradationPoint := some 25,
       errorRateThreshold := false, latencyThreshold := false } :
        EscalationState).degradationPoint = some 25 :=
  ⟨by norm_num [walkLevels, detectorStep, computeSample, optTruthy, jsOrOne,
      engineW, okRes, badRes, stDPW, s50W],
   degradation_point_stable engineW [50, 100] stDPW _ [] [s50W] 25 rfl
     (by decide)
     (by norm_num [walkLevels, detectorStep, computeSample, optTruthy, jsOrOne,
       engineW, okRes, badRes, stDPW, s50W])⟩

/-- C8: the error rate of every executed sample is errors divided by
`max(totalRequests, 1)`; the denominator is positive, so the rate is a
well-defined rational even for a run with zero completed requests. -/
theorem error_rate_guarded (connections : ℕ) (result : LoadResult) :
    (computeSample connections result).errorRate =
      (result.errors : ℚ) / ((max result.requestsTotal 1 : ℕ) : ℚ) ∧
    (0 : ℚ) < ((max result.requestsTotal 1 : ℕ) : ℚ) := by
  constructor
  · show (result.errors : ℚ) / ((jsOrOne result.requestsTotal : ℕ) : ℚ) = _
    rw [jsOrOne_eq_max]
  · exact_mod_cast Nat.lt_of_lt_of_le Nat.zero_lt_one (le_max_right _ _)

/-- A successful endpoint run is a successful walk of the filtered ladder
folded into a summary. -/
theorem runEndpoint_ok_destruct (engine : ℕ → Except Unit LoadResult)
    (name : String) (maxConnections : ℕ) (summary : EndpointSummary)
    (h : runEndpoint engine name maxConnections = .ok summary) :
    ∃ stf results,
      walkLevels engine
        (baseConnectionLevels.filter fun level => level ≤ maxConnections)
        initialState [] = .ok (stf, results) ∧
      summary = mkEndpointSummary name stf.degradationPoint results := by
  simp only [runEndpoint] at h
  cases hW : walkLevels engine
      (baseConnectionLevels.filter fun level => level ≤ maxConnections)
      initialState [] with
  | error e => rw [hW] at h; simp at h
  | ok p =>
    obtain ⟨stf, results⟩ := p
    rw [hW] at h
    have h' : Except.ok (ε := Unit)
        (mkEndpointSummary name stf.degradationPoint results) = .ok summary := h
    exact ⟨stf, results, rfl, (Except.ok.inj h').symm⟩

/-- The base ladder is strictly ascending. -/
theorem baseConnectionLevels_sorted :
    List.Pairwise (· < ·) baseConnectionLevels := by
  decide

/-- Every base ladder level is nonzero. -/
theorem baseConnectionLevels_pos : ∀ l ∈ baseConnectionLevels, l ≠ 0 := by
  decide

/-- C3: whenever a completed endpoint run reports degradation point `D`,
every sample of its summary sits at a level `≤ 2 * D` — the runner
skipped all levels beyond twice the degradation point. -/
theorem skip_ahead_bound (engine : ℕ → Except Unit LoadResult)
    (name : String) (maxConnections : ℕ) (summary : EndpointSummary)
    (D : ℕ) (h : runEndpoint engine name maxConnections = .ok summary)
    (hD : summary.degradationPoint = some D) :
    ∀ s ∈ summary.results, s.connections ≤ 2 * D := by
  obtain ⟨stf, results, hW, hsum⟩ :=
    runEndpoint_ok_destruct engine name maxConnections summary h
  have hpair : List.Pairwise (· < ·)
      (baseConnectionLevels.filter fun level => level ≤ maxConnections) :=
    baseConnectionLevels_sorted.filter _
  have hpos : ∀ l ∈ (baseConnectionLevels.filter
      fun level => level ≤ maxConnections), l ≠ 0 :=
    fun l hl => baseConnectionLevels_pos l (List.mem_of_mem_filter hl)
  have hdN : summary.degradationPoint = stf.degradationPoint := by
    rw [hsum]; rfl
  have hresults : summary.results = results := by
    rw [hsum]; rfl
  rcases walkLevels_none_dp engine _ hpair hpos initialState stf results rfl hW
      with hnone | ⟨D', hD', _, hbound⟩
  · rw [hdN, hnone] at hD; cases hD
  · have : D' = D := by
      rw [hdN, hD'] at hD
      exact Option.some.inj hD
    intro s hs
    rw [hresults] at hs
    rw [← this]
    exact hbound s hs

/-- C3 witness: `engineW`'s run with ceiling 100 reports degradation at
25, and all its samples are at levels `≤ 50`. -/
theorem skip_ahead_bound_witness :
    runEndpoint engineW "x" 100 = .ok summaryW ∧
    summaryW.degradationPoint = some 25 ∧
    ∀ s ∈ summaryW.results, s.connections ≤ 2 * 25 :=
  ⟨by norm_num [runEndpoint, baseConnectionLevels, walkLevels, detectorStep,
      computeSample, optTruthy, jsOrOne, initialState, engineW, okRes, badRes,
      mkEndpointSummary, optimalConnectionPoint, maxThroughputOf,
      summaryW, s10W, s25W],
   rfl,
   skip_ahead_bound engineW "x" 100 summaryW 25
     (by norm_num [runEndpoint, baseConnectionLevels, walkLevels, detectorStep,
       computeSample, optTruthy, jsOrOne, initialState, engineW, okRes, badRes,
       mkEndpointSummary, optimalConnectionPoint, maxThroughputOf,
       summaryW, s10W, s25W])
     rfl⟩

/-- C9: the samples of every completed endpoint run are strictly
ascending by connection count, and every executed level belongs to the
base ladder filtered to the endpoint's `maxConnections` ceiling. -/
theorem samples_ascending (engine : ℕ → Except Unit LoadResult)
    (name : String) (maxConnections : ℕ) (summary : EndpointSummary)
    (h : runEndpoint engine name maxConnections = .ok summary) :
    List.Pairwise (fun a b => a.connections < b.connections) summary.results ∧
    ∀ s ∈ summary.results,
      s.connections ∈ baseConnectionLevels.filter
        fun level => level ≤ maxConnections := by
  obtain ⟨stf, results, hW, hsum⟩ :=
    runEndpoint_ok_destruct engine name maxConnections summary h
  have hpair : List.Pairwise (· < ·)
      (baseConnectionLevels.filter fun level => level ≤ maxConnections) :=
    baseConnectionLevels_sorted.filter _
  have hresults : summary.results = results := by
    rw [hsum]; rfl
  rw [hresults]
  exact ⟨walkLevels_sorted engine _ hpair initialState stf results hW,
    walkLevels_mem engine _ initialState stf results hW⟩

/-- C9 witness: `engineW`'s run with ceiling 100 yields samples at 10
then 25, ascending and drawn from the filtered ladder. -/
theorem samples_ascending_witness :
    runEndpoint engineW "x" 100 = .ok summaryW ∧
    (List.Pairwise (fun a b => a.connections < b.connections)
        summaryW.results ∧
      ∀ s ∈ summaryW.results,
        s.connections ∈ baseConnectionLevels.filter
          fun level => level ≤ 100) :=
  ⟨by norm_num [runEndpoint, baseConnectionLevels, walkLevels, detectorStep,
      computeSample, optTruthy, jsOrOne, initialState, engineW, okRes, badRes,
      mkEndpointSummary, optimalConnectionPoint, maxThroughputOf,
      summaryW, s10W, s25W],
   samples_ascending engineW "x" 100 summaryW
     (by norm_num [runEndpoint, baseConnectionLevels, walkLevels, detectorStep,
       computeSample, optTruthy, jsOrOne, initialState, engineW, okRes, badRes,
       mkEndpointSummary, optimalConnectionPoint, maxThroughputOf,
       summaryW, s10W, s25W])⟩

/-- C4: if an executed sample of a walk breaches the 10% error-rate or
3000 ms latency hard stop, no sample exists at any strictly higher
concurrency level (every other sample sits at a level `≤` the breaching
one), and the corresponding sticky flag is still set in the final state —
it is never cleared during the walk. -/
theorem sticky_threshold_stop (engine : ℕ → Except Unit LoadResult)
    (levels : List ℕ) (hsorted : List.Pairwise (· < ·) levels)
    (st' : EscalationState) (res : List Sample)
    (h : walkLevels engine levels initialState [] = .ok (st', res))
    (s : Sample) (hs : s ∈ res) :
    ((1 / 10 : ℚ) < s.errorRate →
        (∀ r ∈ res, r.connections ≤ s.connections) ∧
        st'.errorRateThreshold = true) ∧
    ((3000 : ℚ) < s.latency →
        (∀ r ∈ res, r.connections ≤ s.connections) ∧
        st'.latencyThreshold = true) := by
  have hsorted_res :=
    walkLevels_sorted engine levels hsorted initialState st' res h
  have hlast : ∀ r ∈ res,
      ((1 / 10 : ℚ) < s.errorRate ∨ (3000 : ℚ) < s.latency) →
      r.connections ≤ s.connections := by
    intro r hr htrig
    obtain ⟨⟨pre, hpre⟩, _, _⟩ :=
      walkLevels_trigger engine levels initialState st' res h s hs htrig
    rw [hpre] at hsorted_res hr
    rcases List.mem_append.mp hr with hr | hr
    · exact le_of_lt ((List.pairwise_append.mp hsorted_res).2.2 r hr s
        (List.mem_singleton.mpr rfl))
    · rw [List.mem_singleton.mp hr]
  constructor
  · intro ht
    obtain ⟨_, himp, _⟩ :=
      walkLevels_trigger engine levels initialState st' res h s hs (Or.inl ht)
    exact ⟨fun r hr => hlast r hr (Or.inl ht), himp ht⟩
  · intro ht
    obtain ⟨_, _, himp⟩ :=
      walkLevels_trigger engine levels initialState st' res h s hs (Or.inr ht)
    exact ⟨fun r hr => hlast r hr (Or.inr ht), himp ht⟩

/-- C4 witness: in `engineW`'s walk over `[10, 25, 50]` the sample at 25
breaches the error-rate hard stop; every sample sits at a level `≤ 25`
and the final state still carries the error-rate flag. -/
theorem sticky_threshold_stop_witness :
    List.Pairwise (· < ·) [10, 25, 50] ∧
    walkLevels engineW [10, 25, 50] initialState [] =
      .ok (stFinW, [s10W, s25W]) ∧
    s25W ∈ [s10W, s25W] ∧
    (((1 / 10 : ℚ) < s25W.errorRate →
        (∀ r ∈ [s10W, s25W], r.connections ≤ s25W.connections) ∧
        stFinW.errorRateThreshold = true) ∧
      ((3000 : ℚ) < s25W.latency →
        (∀ r ∈ [s10W, s25W], r.connections ≤ s25W.connections) ∧
        stFinW.latencyThreshold = true)) :=
  ⟨by decide,
   by norm_num [walkLevels, detectorStep, computeSample, optTruthy, jsOrOne,
     engineW, okRes, badRes, initialState, stFinW, s10W, s25W],
   by simp,
   sticky_threshold_stop engineW [10, 25, 50] (by decide) stFinW [s10W, s25W]
     (by norm_num [walkLevels, detectorStep, computeSample, optTruthy, jsOrOne,
       engineW, okRes, badRes, initialState, stFinW, s10W, s25W])
     s25W (by simp)⟩

/-- Unfolding `maxThroughputOf` on a cons. -/
theorem maxThroughputOf_cons (x : Sample) (l : List Sample) :
    maxThroughputOf (x :: l) =
      max (x.throughput : WithBot ℚ) (maxThroughputOf l) := rfl

/-- `maxThroughputOf` bounds every sample's throughput. -/
theorem le_maxThroughputOf :
    ∀ (l : List Sample), ∀ r ∈ l,
      (r.throughput : WithBot ℚ) ≤ maxThroughputOf l := by
  intro l
  induction l with
  | nil => intro r hr; simp at hr
  | cons x t ih =>
    intro r hr
    rw [maxThroughputOf_cons]
    rcases List.mem_cons.mp hr with rfl | hr
    · exact le_max_left _ _
    · exact le_trans (ih r hr) (le_max_right _ _)

/-- On a nonempty list, `maxThroughputOf` is attained by some sample. -/
theorem maxThroughputOf_attained :
    ∀ (l : List Sample), l ≠ [] →
      ∃ r ∈ l, (r.throughput : WithBot ℚ) = maxThroughputOf l := by
  intro l
  induction l with
  | nil => intro h; exact absurd rfl h
  | cons x t ih =>
    intro _
    cases t with
    | nil =>
      refine ⟨x, List.mem_singleton.mpr rfl, ?_⟩
      rw [maxThroughputOf_cons, show maxThroughputOf [] = ⊥ from rfl,
        max_eq_left bot_le]
    | cons y t' =>
      obtain ⟨r, hrmem, hr⟩ := ih (by simp)
      rw [maxThroughputOf_cons]
      rcases le_total (maxThroughputOf (y :: t')) (x.throughput : WithBot ℚ)
          with hle | hle
      · exact ⟨x, List.mem_cons_self _ _, (max_eq_left hle).symm⟩
      · exact ⟨r, List.mem_cons_of_mem _ hrmem, by rw [max_eq_right hle, hr]⟩

/-- `find?` on a list sorted strictly by connection count returns an
element whose connection count is minimal among all matches. -/
theorem find_first_sorted (p : Sample → Bool) :
    ∀ (l : List Sample),
      List.Pairwise (fun a b => a.connections < b.connections) l →
      ∀ s, l.find? p = some s →
      ∀ r ∈ l, p r = true → s.connections ≤ r.connections := by
  intro l
  induction l with
  | nil => intro _ s h; simp at h
  | cons a t ih =>
    intro hp s h r hr hpr
    by_cases hpa : p a = true
    · rw [List.find?_cons_of_pos _ hpa] at h
      obtain rfl : a = s := by injection h
      rcases List.mem_cons.mp hr with rfl | hr
      · exact le_refl _
      · exact le_of_lt ((List.pairwise_cons.mp hp).1 r hr)
    · rw [List.find?_cons_of_neg _ (by simpa using hpa)] at h
      rcases List.mem_cons.mp hr with rfl | hr
      · exact absurd hpr hpa
      · exact ih (List.Pairwise.of_cons hp) s h r hr hpr

/-- C5: on a non-empty strictly ascending sample list, the summary's
`optimalConnections` is the connection count of a sample achieving the
maximum throughput, and under throughput ties the smallest connection
count wins. -/
theorem optimal_connections_first_max (name : String) (dp : Option ℕ)
    (results : List Sample) (hne : results ≠ [])
    (hsorted : List.Pairwise (fun a b => a.connections < b.connections)
      results) :
    ∃ s, (mkEndpointSummary name dp results).optimalConnections =
        some s.connections ∧
      s ∈ results ∧
      (∀ r ∈ results, r.throughput ≤ s.throughput) ∧
      ∀ r ∈ results, r.throughput = s.throughput →
        s.connections ≤ r.connections := by
  obtain ⟨m, hmmem, hmeq⟩ := maxThroughputOf_attained results hne
  cases hfind : results.find?
      (fun r => decide ((r.throughput : WithBot ℚ) = maxThroughputOf results))
      with
  | none =>
    exact absurd (decide_eq_true_eq.mpr hmeq)
      (by simpa using List.find?_eq_none.mp hfind m hmmem)
  | some s =>
    have hps := List.find?_some hfind
    simp only [decide_eq_true_eq] at hps
    have hsmax : (s.throughput : WithBot ℚ) = maxThroughputOf results := hps
    have hsmem : s ∈ results := List.mem_of_find?_eq_some hfind
    refine ⟨s, ?_, hsmem, ?_, ?_⟩
    · show (optimalConnectionPoint results).map (·.connections) = _
      rw [show optimalConnectionPoint results = some s from hfind]
      rfl
    · intro r hr
      have := le_maxThroughputOf results r hr
      rw [← hsmax] at this
      exact_mod_cast this
    · intro r hr hrth
      exact find_first_sorted _ results hsorted s hfind r hr
        (decide_eq_true_eq.mpr (by rw [← hsmax, hrth]))

/-- C5 witness: both samples of `summaryW` have throughput 100; the
optimum is reported at the smaller level, 10. -/
theorem optimal_connections_first_max_witness :
    [s10W, s25W] ≠ ([] : List Sample) ∧
    List.Pairwise (fun a b => a.connections < b.connections) [s10W, s25W] ∧
    ∃ s, (mkEndpointSummary "x" (some 25) [s10W, s25W]).optimalConnections =
        some s.connections ∧
      s ∈ [s10W, s25W] ∧
      (∀ r ∈ [s10W, s25W], r.throughput ≤ s.throughput) ∧
      ∀ r ∈ [s10W, s25W], r.throughput = s.throughput →
        s.connections ≤ r.connections :=
  ⟨by simp, by decide,
   optimal_connections_first_max "x" (some 25) [s10W, s25W] (by simp)
     (by decide)⟩

/-- The bottleneck `reduce` selects an element whose degradation key is
minimal; among equal-key elements the LAST one in input order wins: every
element strictly after the selected one has a strictly larger key. -/
theorem foldl_bottleneck_spec :
    ∀ (t : List EndpointSummary) (h : EndpointSummary),
      ∃ l₁ l₂,
        h :: t = l₁ ++ (List.foldl bottleneckStep h t) :: l₂ ∧
        (∀ e ∈ l₁, (List.foldl bottleneckStep h t).degradationPoint.getD 0 ≤
          e.degradationPoint.getD 0) ∧
        (∀ e ∈ l₂, (List.foldl bottleneckStep h t).degradationPoint.getD 0 <
          e.degradationPoint.getD 0) := by
  intro t
  induction t with
  | nil =>
    intro h
    exact ⟨[], [], rfl, by simp, by simp⟩
  | cons c t' ih =>
    intro h
    rw [List.foldl_cons]
    obtain ⟨l₁, l₂, hdec, hle, hlt⟩ := ih (bottleneckStep h c)
    by_cases hcmp : h.degradationPoint.getD 0 < c.degradationPoint.getD 0
    · have hstep : bottleneckStep h c = h := if_pos hcmp
      rw [hstep] at hdec hle hlt ⊢
      cases l₁ with
      | nil =>
        simp only [List.nil_append] at hdec
        injection hdec with heq hteq
        refine ⟨[], c :: l₂, ?_, by simp, ?_⟩
        · simp only [List.nil_append]
          rw [← heq, hteq]
        · intro e he
          rcases List.mem_cons.mp he with he1 | he2
          · rw [he1, ← heq]
            exact hcmp
          · exact hlt e he2
      | cons a l₁' =>
        simp only [List.cons_append] at hdec
        injection hdec with heq hteq
        refine ⟨h :: c :: l₁', l₂, ?_, ?_, hlt⟩
        · simp only [List.cons_append]
          exact congrArg (fun l => h :: c :: l) hteq
        · intro e he
          have hkey : a.degradationPoint.getD 0 = h.degradationPoint.getD 0 := by
            rw [heq]
          have hra := hle a (List.mem_cons_self a l₁')
          rw [hkey] at hra
          rcases List.mem_cons.mp he with he1 | he2
          · rw [he1]; exact hra
          · rcases List.mem_cons.mp he2 with he3 | he4
            · rw [he3]
              exact le_of_lt (lt_of_le_of_lt hra hcmp)
            · exact hle e (List.mem_cons_of_mem a he4)
    · have hstep : bottleneckStep h c = c := if_neg hcmp
      have hck : c.degradationPoint.getD 0 ≤ h.degradationPoint.getD 0 :=
        Nat.le_of_not_lt hcmp
      rw [hstep] at hdec hle hlt ⊢
      cases l₁ with
      | nil =>
        simp only [List.nil_append] at hdec
        injection hdec with heq hteq
        refine ⟨[h], l₂, ?_, ?_, hlt⟩
        · simp only [List.cons_append, List.nil_append]
          rw [← heq, hteq]
        · intro e he
          have he1 : e = h := List.mem_singleton.mp he
          rw [he1]
          calc (List.foldl bottleneckStep c t').degradationPoint.getD 0
              ≤ c.degradationPoint.getD 0 := by rw [← heq]
            _ ≤ h.degradationPoint.getD 0 := hck
      | cons a l₁' =>
        simp only [List.cons_append] at hdec
        injection hdec with heq hteq
        refine ⟨h :: a :: l₁', l₂, ?_, ?_, hlt⟩
        · simp only [List.cons_append]
          rw [← heq]
          exact congrArg (fun l => h :: c :: l) hteq
        · intro e he
          have hkey : a.degradationPoint.getD 0 = c.degradationPoint.getD 0 := by
            rw [heq]
          have hra := hle a (List.mem_cons_self a l₁')
          rw [hkey] at hra
          rcases List.mem_cons.mp he with he1 | he2
          · rw [he1]
            exact le_trans hra hck
          · rcases List.mem_cons.mp he2 with he3 | he4
            · rw [he3]
              exact hle a (List.mem_cons_self a l₁')
            · exact hle e (List.mem_cons_of_mem a he4)

/-- Truthiness of an optional degradation point, propositionally. -/
theorem optTruthy_eq_true_iff (o : Option ℕ) :
    optTruthy o = true ↔ ∃ d, o = some d ∧ d ≠ 0 := by
  cases o <;> simp [optTruthy]

/-- In a strictly ascending sample list, every sample's connection count
is bounded by the last sample's. -/
theorem le_getLast_connections :
    ∀ (l : List Sample),
      List.Pairwise (fun a b => a.connections < b.connections) l →
      ∀ s ∈ l, ∃ r, l.getLast? = some r ∧ s.connections ≤ r.connections := by
  intro l
  induction l with
  | nil => intro _ s hs; simp at hs
  | cons x t ih =>
    intro hp s hs
    cases t with
    | nil =>
      have hsx : s = x := List.mem_singleton.mp hs
      exact ⟨x, rfl, by rw [hsx]⟩
    | cons y t' =>
      rcases List.mem_cons.mp hs with h1 | h2
      · obtain ⟨r, hlast, _⟩ :=
          ih (List.Pairwise.of_cons hp) y (List.mem_cons_self y t')
        refine ⟨r, by rw [List.getLast?_cons_cons]; exact hlast, ?_⟩
        have hrmem : r ∈ y :: t' := by
          obtain ⟨hne, hr⟩ := List.mem_getLast?_eq_getLast
            (show r ∈ (y :: t').getLast? from by rw [hlast]; rfl)
          rw [hr]
          exact List.getLast_mem hne
        rw [h1]
        exact le_of_lt ((List.pairwise_cons.mp hp).1 r hrmem)
      · obtain ⟨r, hlast, hle⟩ := ih (List.Pairwise.of_cons hp) s h2
        exact ⟨r, by rw [List.getLast?_cons_cons]; exact hlast, hle⟩

/-- Unfolding `maxTestedConnections` on a cons. -/
theorem maxTestedConnections_cons (e : EndpointSummary)
    (l : List EndpointSummary) :
    maxTestedConnections (e :: l) =
      max ((lastConnectionsOrZero e : ℕ) : WithBot ℕ)
        (maxTestedConnections l) := rfl

/-- `maxTestedConnections` bounds every summary's last tested level. -/
theorem le_maxTestedConnections :
    ∀ (l : List EndpointSummary), ∀ e ∈ l,
      ((lastConnectionsOrZero e : ℕ) : WithBot ℕ) ≤ maxTestedConnections l := by
  intro l
  induction l with
  | nil => intro e he; simp at he
  | cons x t ih =>
    intro e he
    rw [maxTestedConnections_cons]
    rcases List.mem_cons.mp he with rfl | he
    · exact le_max_left _ _
    · exact le_trans (ih e he) (le_max_right _ _)

/-- On a nonempty summary list, `maxTestedConnections` is attained. -/
theorem maxTestedConnections_attained :
    ∀ (l : List EndpointSummary), l ≠ [] →
      ∃ e ∈ l, ((lastConnectionsOrZero e : ℕ) : WithBot ℕ) =
        maxTestedConnections l := by
  intro l
  induction l with
  | nil => intro h; exact absurd rfl h
  | cons x t ih =>
    intro _
    cases t with
    | nil =>
      refine ⟨x, List.mem_singleton.mpr rfl, ?_⟩
      rw [maxTestedConnections_cons,
        show maxTestedConnections [] = ⊥ from rfl, max_eq_left bot_le]
    | cons y t' =>
      obtain ⟨e, hemem, he⟩ := ih (by simp)
      rw [maxTestedConnections_cons]
      rcases le_total (maxTestedConnections (y :: t'))
          ((lastConnectionsOrZero x : ℕ) : WithBot ℕ) with hle | hle
      · exact ⟨x, List.mem_cons_self _ _, (max_eq_left hle).symm⟩
      · exact ⟨e, List.mem_cons_of_mem _ hemem, by rw [max_eq_right hle, he]⟩

/-- The bottleneck selection, decomposed: the selected summary is the
last one among those with minimal degradation key in the filtered list. -/
theorem findBottleneck_spec (summaries : List EndpointSummary)
    (b : EndpointSummary) (hfb : findBottleneck summaries = some b) :
    ∃ l₁ l₂,
      summaries.filter (fun e => optTruthy e.degradationPoint) =
        l₁ ++ b :: l₂ ∧
      (∀ e ∈ l₁, b.degradationPoint.getD 0 ≤ e.degradationPoint.getD 0) ∧
      (∀ e ∈ l₂, b.degradationPoint.getD 0 < e.degradationPoint.getD 0) := by
  unfold findBottleneck at hfb
  cases hfil : summaries.filter (fun e => optTruthy e.degradationPoint) with
  | nil =>
    rw [hfil] at hfb
    exact Option.noConfusion hfb
  | cons h t =>
    rw [hfil] at hfb
    have hfb' : some (t.foldl bottleneckStep h) = some b := hfb
    have hb := Option.some.inj hfb'
    obtain ⟨l₁, l₂, hdec, hle, hlt⟩ := foldl_bottleneck_spec t h
    rw [hb] at hdec hle hlt
    exact ⟨l₁, l₂, hdec, hle, hlt⟩

/-- The aggregate report's bottleneck field is the bottleneck selection. -/
theorem aggregate_bottleneck_eq (summaries : List EndpointSummary) :
    (aggregate summaries).bottleneck = findBottleneck summaries := by
  unfold aggregate
  cases findBottleneck summaries <;> rfl

/-- C6: when some summary has a (truthy) degradation point, the
aggregator reports a bottleneck summary whose degradation point is
minimal among all truthy degradation points, together with the ceiling
`floor(degradationPoint * 0.7)` and no max-tested figure; when none has
one, it reports no bottleneck and no ceiling and instead surfaces the
maximum concurrency level exercised across all endpoints. -/
theorem aggregator_report (summaries : List EndpointSummary)
    (hsorted : ∀ e ∈ summaries,
      List.Pairwise (fun a b => a.connections < b.connections) e.results) :
    ((∃ e ∈ summaries, optTruthy e.degradationPoint = true) →
      ∃ b d, (aggregate summaries).bottleneck = some b ∧ b ∈ summaries ∧
        b.degradationPoint = some d ∧ d ≠ 0 ∧
        (∀ e ∈ summaries, ∀ d', e.degradationPoint = some d' → d' ≠ 0 →
          d ≤ d') ∧
        (aggregate summaries).recommendedLimit =
          some (Int.floor ((d : ℚ) * (7 / 10 : ℚ))) ∧
        (aggregate summaries).maxTested = none) ∧
    ((∀ e ∈ summaries, optTruthy e.degradationPoint = false) →
      (aggregate summaries).bottleneck = none ∧
      (aggregate summaries).recommendedLimit = none ∧
      ∃ M, (aggregate summaries).maxTested = some M ∧
        (∀ e ∈ summaries, ∀ s ∈ e.results,
          ((s.connections : ℕ) : WithBot ℕ) ≤ M) ∧
        (M = ⊥ ∨ M = ((0 : ℕ) : WithBot ℕ) ∨
          ∃ e ∈ summaries, ∃ s ∈ e.results,
            ((s.connections : ℕ) : WithBot ℕ) = M)) := by
  constructor
  · rintro ⟨e0, he0, ht0⟩
    have he0f : e0 ∈ summaries.filter (fun e => optTruthy e.degradationPoint) :=
      List.mem_filter.mpr ⟨he0, ht0⟩
    cases hfb : findBottleneck summaries with
    | none =>
      unfold findBottleneck at hfb
      cases hfil : summaries.filter (fun e => optTruthy e.degradationPoint) with
      | nil => rw [hfil] at he0f; simp at he0f
      | cons h t =>
        rw [hfil] at hfb
        exact Option.noConfusion hfb
    | some b =>
      obtain ⟨l₁, l₂, hdec, hle, hlt⟩ := findBottleneck_spec summaries b hfb
      have hbf : b ∈ summaries.filter (fun e => optTruthy e.degradationPoint) := by
        rw [hdec]
        exact List.mem_append_right _ (List.mem_cons_self _ _)
      have hbmem : b ∈ summaries := List.mem_of_mem_filter hbf
      have hbp := (List.mem_filter.mp hbf).2
      obtain ⟨d, hd, hd0⟩ := (optTruthy_eq_true_iff b.degradationPoint).mp hbp
      have hkey : b.degradationPoint.getD 0 = d := by rw [hd]; rfl
      refine ⟨b, d, ?_, hbmem, hd, hd0, ?_, ?_, ?_⟩
      · rw [aggregate_bottleneck_eq]
        exact hfb
      · intro e he d' hd' hd0'
        have hef : e ∈ summaries.filter
            (fun e => optTruthy e.degradationPoint) :=
          List.mem_filter.mpr ⟨he,
            (optTruthy_eq_true_iff e.degradationPoint).mpr ⟨d', hd', hd0'⟩⟩
        have hekey : e.degradationPoint.getD 0 = d' := by rw [hd']; rfl
        rw [hdec] at hef
        rcases List.mem_append.mp hef with hel | hel
        · have := hle e hel
          rw [hkey, hekey] at this
          exact this
        · rcases List.mem_cons.mp hel with rfl | hel
          · rw [hd] at hd'
            exact le_of_eq (Option.some.inj hd')
          · have := hlt e hel
            rw [hkey, hekey] at this
            exact le_of_lt this
      · show (aggregate summaries).recommendedLimit = _
        unfold aggregate
        rw [hfb]
        simp only [hkey]
      · show (aggregate summaries).maxTested = none
        unfold aggregate
        rw [hfb]
  · intro hall
    have hfil : summaries.filter (fun e => optTruthy e.degradationPoint)
        = [] := by
      rw [List.filter_eq_nil_iff]
      intro e he
      rw [hall e he]
      simp
    have hfb : findBottleneck summaries = none := by
      unfold findBottleneck
      rw [hfil]
    refine ⟨?_, ?_, maxTestedConnections summaries, ?_, ?_, ?_⟩
    · rw [aggregate_bottleneck_eq]; exact hfb
    · show (aggregate summaries).recommendedLimit = none
      unfold aggregate
      rw [hfb]
    · show (aggregate summaries).maxTested = some _
      unfold aggregate
      rw [hfb]
    · intro e he s hs
      obtain ⟨r, hlast, hle⟩ :=
        le_getLast_connections e.results (hsorted e he) s hs
      have hlz : lastConnectionsOrZero e = r.connections := by
        simp [lastConnectionsOrZero, hlast]
      refine le_trans ?_ (le_maxTestedConnections summaries e he)
      rw [hlz]
      exact_mod_cast hle
    · by_cases hnil : summaries = []
      · left
        rw [hnil]
        rfl
      · obtain ⟨e, hemem, he⟩ := maxTestedConnections_attained summaries hnil
        cases hlast : e.results.getLast? with
        | none =>
          right; left
          have hlz : lastConnectionsOrZero e = 0 := by
            simp [lastConnectionsOrZero, hlast]
          rw [← he, hlz]
        | some r =>
          right; right
          have hlz : lastConnectionsOrZero e = r.connections := by
            simp [lastConnectionsOrZero, hlast]
          have hrmem : r ∈ e.results := by
            obtain ⟨hne, hr⟩ := List.mem_getLast?_eq_getLast
              (show r ∈ e.results.getLast? from by rw [hlast]; rfl)
            rw [hr]
            exact List.getLast_mem hne
          exact ⟨e, hemem, r, hrmem, by rw [← he, hlz]⟩

/-- C6 witness: aggregating a degraded summary (point 100) with a clean
one yields bottleneck "A", ceiling `floor(100 * 0.7) = 70`, and no
max-tested figure. -/
theorem aggregator_report_witness :
    (∀ e ∈ [sumA, sumC],
      List.Pairwise (fun a b => a.connections < b.connections) e.results) ∧
    ((∃ e ∈ [sumA, sumC], optTruthy e.degradationPoint = true) →
      ∃ b d, (aggregate [sumA, sumC]).bottleneck = some b ∧
        b ∈ [sumA, sumC] ∧
        b.degradationPoint = some d ∧ d ≠ 0 ∧
        (∀ e ∈ [sumA, sumC], ∀ d', e.degradationPoint = some d' → d' ≠ 0 →
          d ≤ d') ∧
        (aggregate [sumA, sumC]).recommendedLimit =
          some (Int.floor ((d : ℚ) * (7 / 10 : ℚ))) ∧
        (aggregate [sumA, sumC]).maxTested = none) ∧
    ((∀ e ∈ [sumA, sumC], optTruthy e.degradationPoint = false) →
      (aggregate [sumA, sumC]).bottleneck = none ∧
      (aggregate [sumA, sumC]).recommendedLimit = none ∧
      ∃ M, (aggregate [sumA, sumC]).maxTested = some M ∧
        (∀ e ∈ [sumA, sumC], ∀ s ∈ e.results,
          ((s.connections : ℕ) : WithBot ℕ) ≤ M) ∧
        (M = ⊥ ∨ M = ((0 : ℕ) : WithBot ℕ) ∨
          ∃ e ∈ [sumA, sumC], ∃ s ∈ e.results,
            ((s.connections : ℕ) : WithBot ℕ) = M)) :=
  ⟨by decide, aggregator_report [sumA, sumC] (by decide)⟩

/-- C10 counterexample: two summaries "A" then "B" share degradation
point 100; the aggregator reports the LATER one, "B", as bottleneck, not
the earliest as claimed. -/
theorem bottleneck_tie_counterexample :
    (aggregate [sumA, sumB]).bottleneck = some sumB ∧ sumB ≠ sumA := by
  constructor
  · rw [aggregate_bottleneck_eq]
    decide
  · decide

/-- C10 amended: on a degradation-point tie the aggregator keeps the
LATER summary: the reported bottleneck has minimal degradation key, every
summary before it in the filtered input has a key `≥` its own, and every
summary after it has a strictly larger key. -/
theorem bottleneck_tie_latest (summaries : List EndpointSummary)
    (b : EndpointSummary)
    (hfb : (aggregate summaries).bottleneck = some b) :
    ∃ l₁ l₂,
      summaries.filter (fun e => optTruthy e.degradationPoint) =
        l₁ ++ b :: l₂ ∧
      (∀ e ∈ l₁, b.degradationPoint.getD 0 ≤ e.degradationPoint.getD 0) ∧
      (∀ e ∈ l₂, b.degradationPoint.getD 0 < e.degradationPoint.getD 0) :=
  findBottleneck_spec summaries b
    (by rw [← aggregate_bottleneck_eq]; exact hfb)

/-- C10 amended witness: with the tied summaries "A" and "B", the
reported bottleneck "B" decomposes the filtered list as `[A] ++ [B]`. -/
theorem bottleneck_tie_latest_witness :
    (aggregate [sumA, sumB]).bottleneck = some sumB ∧
    ∃ l₁ l₂,
      List.filter (fun e => optTruthy e.degradationPoint) [sumA, sumB] =
        l₁ ++ sumB :: l₂ ∧
      (∀ e ∈ l₁, sumB.degradationPoint.getD 0 ≤ e.degradationPoint.getD 0) ∧
      (∀ e ∈ l₂, sumB.degradationPoint.getD 0 < e.degradationPoint.getD 0) :=
  ⟨by rw [aggregate_bottleneck_eq]; decide,
   bottleneck_tie_latest [sumA, sumB] sumB
     (by rw [aggregate_bottleneck_eq]; decide)⟩

/-- C7 counterexample: with an engine that throws at ladder level 50 (the
third level of the ceiling-100 ladder, after clean samples at 10 and 25),
the endpoint run returns an error — no partial summary with the first two
samples is returned — and a two-endpoint sweep also returns an error, so
the remaining endpoint is never processed. -/
theorem transport_error_counterexample :
    runEndpoint errEngineW "x" 100 = .error () ∧
    runSweep (fun _ => errEngineW)
      [{ name := "x", maxConnections := 100 },
       { name := "y", maxConnections := 100 }] = .error () := by
  constructor
  · norm_num [runEndpoint, baseConnectionLevels, walkLevels, detectorStep,
      computeSample, optTruthy, jsOrOne, initialState, errEngineW, okRes]
  · norm_num [runSweep, runEndpoint, baseConnectionLevels, walkLevels,
      detectorStep, computeSample, optTruthy, jsOrOne, initialState,
      errEngineW, okRes]

/-- C7 amended: an exception thrown by the load engine during an
endpoint's walk propagates out of `runEndpoint` — no summary, partial or
otherwise, is produced for that endpoint — and out of the whole sweep:
the remaining endpoints are not processed, the error being caught only by
the top-level handler, which logs and exits the process. -/
theorem transport_error_aborts_sweep
    (engine : String → ℕ → Except Unit LoadResult)
    (e : EndpointSpec) (rest : List EndpointSpec) (err : Unit)
    (h : runEndpoint (engine e.name) e.name e.maxConnections = .error err) :
    runSweep engine (e :: rest) = .error err := by
  simp only [runSweep, h]

/-- C7 amended witness: the sweep starting with the throwing endpoint
"x" aborts with the error. -/
theorem transport_error_aborts_sweep_witness :
    runEndpoint ((fun _ => errEngineW) "x") "x" 100 = .error () ∧
    runSweep (fun _ => errEngineW)
      ({ name := "x", maxConnections := 100 } ::
        [{ name := "y", maxConnections := 100 }]) = .error () :=
  ⟨by norm_num [runEndpoint, baseConnectionLevels, walkLevels, detectorStep,
      computeSample, optTruthy, jsOrOne, initialState, errEngineW, okRes],
   transport_error_aborts_sweep (fun _ => errEngineW)
     { name := "x", maxConnections := 100 }
     [{ name := "y", maxConnections := 100 }] ()
     (by norm_num [runEndpoint, baseConnectionLevels, walkLevels, detectorStep,
       computeSample, optTruthy, jsOrOne, initialState, errEngineW, okRes])⟩
